import Mathlib

/-!
Verification of the rolling alpha/beta monitoring core of
`alpha_beta_dashboard.py`.

The embedding models:
* the aligner `pd.concat([strategy_ret, twii_ret], axis=1).dropna()`
  (lines 22-23) as `merge`: the inner join on date, in ascending date order
  (pandas builds the sorted union of the two date indexes and `dropna`
  keeps exactly the dates present in both; the benchmark index coming from
  the provider is always sorted, so the table is sorted in every reachable
  case);
* the rolling statistics (lines 25-29) with exact rational arithmetic:
  `svar`/`scov` use the sample (n-1) convention as pandas does, a missing
  (NaN) cell is `Option.none`, and the beta column `cov / var` is IEEE
  division modelled by `FV` (finite / signed infinity / NaN);
* the rolling correlation as a real number `cov / sqrt (var_x * var_y)`,
  NaN (`none`) when the window is not yet full or a variance is zero;
* the latest-row snapshot and deltas of `main` (lines 81-85), where an
  empty table makes `metrics.iloc[-1]` raise (modelled as `none`);
* the alert condition of `main` (line 92), which compares the raw signed
  latest values against 0.4.
-/

namespace AlphaBeta

/-- Calendar dates, abstracted as integers (only ordering matters). -/
abbrev Date := Int

/-- A return series: (date, fractional daily return) pairs. -/
abbrev Series := List (Date × ℚ)

/-- The dates of a series. -/
def dates (s : Series) : List Date := s.map Prod.fst

/-- The value a series holds at date `d` (the first one, which is the unique
one when dates are unique); `none` when the date is absent. -/
def lookup (s : Series) (d : Date) : Option ℚ :=
  (s.find? (fun p => p.1 == d)).map Prod.snd

/-- One row of the aligned table: date, strategy return, benchmark return. -/
structure Row where
  date : Date
  ret : ℚ
  twii : ℚ
deriving Repr, DecidableEq, Inhabited

/-- Insert a date into a strictly ascending list, keeping it strictly
ascending (duplicates collapse). -/
def insertAsc (d : Date) : List Date → List Date
  | [] => [d]
  | x :: xs =>
      if d < x then d :: x :: xs
      else if d = x then x :: xs
      else x :: insertAsc d xs

/-- Strictly ascending deduplicated ordering of a list of dates: the sorted
union index that `pd.concat(axis=1)` builds. -/
def sortedDedup (l : List Date) : List Date := l.foldr insertAsc []

/-- The aligned row at date `d`, present only when both series hold a value
there (`dropna` keeps the rows with no missing cell). -/
def mkRow (s b : Series) (d : Date) : Option Row :=
  match lookup s d, lookup b d with
  | some x, some y => some ⟨d, x, y⟩
  | _, _ => none

/-- Lines 22-23: `pd.concat([strategy_ret, twii_ret], axis=1).dropna()` —
one row per date present in both series, values taken from each series,
in ascending date order. -/
def merge (s b : Series) : List Row :=
  (sortedDedup ((dates s).filter (fun d => (dates b).contains d))).filterMap
    (mkRow s b)

/-- Line 8: `WINDOW = 60`. -/
def WINDOW : ℕ := 60

/-- Arithmetic mean of a list of rationals. -/
def mean (xs : List ℚ) : ℚ := xs.sum / xs.length

/-- Sample variance (n-1 denominator), the convention of `rolling.var`. -/
def svar (xs : List ℚ) : ℚ :=
  ((xs.map (fun x => (x - mean xs) ^ 2)).sum) / ((xs.length : ℚ) - 1)

/-- Sample covariance (n-1 denominator), the convention of `rolling.cov`. -/
def scov (xs ys : List ℚ) : ℚ :=
  ((List.zipWith (fun x y => (x - mean xs) * (y - mean ys)) xs ys).sum) /
    ((xs.length : ℚ) - 1)

/-- The trailing `WINDOW` observations ending at index `i` (inclusive). -/
def winAt (l : List Row) (i : ℕ) : List Row :=
  (l.take (i + 1)).drop (i + 1 - WINDOW)

/-- Strategy-return column of the trailing window at index `i`. -/
def retsAt (l : List Row) (i : ℕ) : List ℚ := (winAt l i).map Row.ret

/-- Benchmark-return column of the trailing window at index `i`. -/
def twiisAt (l : List Row) (i : ℕ) : List ℚ := (winAt l i).map Row.twii

/-- Line 27: `merged["ret"].rolling(WINDOW).cov(merged["twii_ret"])` at
index `i` — NaN (`none`) until the window is full. -/
def rcov (l : List Row) (i : ℕ) : Option ℚ :=
  if WINDOW ≤ i + 1 then some (scov (retsAt l i) (twiisAt l i)) else none

/-- Line 28: `merged["twii_ret"].rolling(WINDOW).var()` at index `i`. -/
def rvar (l : List Row) (i : ℕ) : Option ℚ :=
  if WINDOW ≤ i + 1 then some (svar (twiisAt l i)) else none

/-- A float cell of the beta column: finite value, signed infinity
(`true` = positive), or NaN. -/
inductive FV where
  | nan : FV
  | inf : Bool → FV
  | fin : ℚ → FV
deriving Repr, DecidableEq, Inhabited

/-- Whether a float cell holds a finite (defined) value. -/
def FV.isFin : FV → Bool
  | FV.fin _ => true
  | _ => false

/-- IEEE division of two possibly-NaN cells, as in line 29 `cov / var`:
NaN propagates, `0/0` is NaN, a nonzero numerator over zero gives a signed
infinity. -/
def fdivO : Option ℚ → Option ℚ → FV
  | some a, some b =>
      if b = 0 then (if a = 0 then FV.nan else FV.inf (decide (0 < a)))
      else FV.fin (a / b)
  | _, _ => FV.nan

/-- Line 25: `merged["ret"].rolling(WINDOW).corr(merged["twii_ret"])` at
index `i`: `cov / sqrt (var_x * var_y)` as a real number; NaN (`none`)
when the window is not full or either variance is zero. -/
noncomputable def rcorr (l : List Row) (i : ℕ) : Option ℝ :=
  if WINDOW ≤ i + 1 then
    if svar (retsAt l i) = 0 ∨ svar (twiisAt l i) = 0 then none
    else
      some ((scov (retsAt l i) (twiisAt l i) : ℝ) /
        Real.sqrt ((svar (retsAt l i) : ℝ) * (svar (twiisAt l i) : ℝ)))
  else none

/-- Line 29: the beta column, `cov / var`. -/
def rbeta (l : List Row) (i : ℕ) : FV := fdivO (rcov l i) (rvar l i)

/-- One row of the computed metrics table: aligned returns plus the rolling
correlation and beta columns. -/
structure MRow where
  date : Date
  ret : ℚ
  twii : ℚ
  corr : Option ℝ
  beta : FV

instance : Inhabited MRow := ⟨⟨0, 0, 0, none, FV.nan⟩⟩

/-- The metrics table built from an aligned series: one output row per
aligned row (pandas keeps every aligned row; early rows carry NaN metrics),
with the rolling columns evaluated at each index. -/
noncomputable def calcMetricsAligned (m : List Row) : List MRow :=
  (List.range m.length).map (fun i =>
    ⟨(m.getD i default).date, (m.getD i default).ret, (m.getD i default).twii,
      rcorr m i, rbeta m i⟩)

/-- Lines 20-30: `calc_metrics` — merge the two series and compute the
rolling columns. -/
noncomputable def calc_metrics (s b : Series) : List MRow :=
  calcMetricsAligned (merge s b)

/-- The latest snapshot: current correlation and beta plus their deltas. -/
structure Snapshot where
  corr : Option ℝ
  beta : FV
  dcorr : Option ℝ
  dbeta : FV

/-- NaN-propagating subtraction on the correlation column. -/
def subO : Option ℝ → Option ℝ → Option ℝ
  | some a, some b => some (a - b)
  | _, _ => none

/-- NaN-propagating subtraction on the beta column. -/
def fsub : FV → FV → FV
  | FV.fin a, FV.fin b => FV.fin (a - b)
  | FV.fin _, FV.inf s => FV.inf (!s)
  | FV.inf s, FV.fin _ => FV.inf s
  | FV.inf a, FV.inf b => if a = b then FV.nan else FV.inf a
  | _, _ => FV.nan

/-- Lines 81-85 of `main`: latest row and deltas against the second-to-last
row of the full table; deltas default to zero when the table has at most one
row; `none` models the IndexError `metrics.iloc[-1]` raises on an empty
table. -/
noncomputable def snapshot (rows : List MRow) : Option Snapshot :=
  match rows.getLast? with
  | none => none
  | some last =>
      if 1 < rows.length then
        match rows.dropLast.getLast? with
        | some prev =>
            some ⟨last.corr, last.beta, subO last.corr prev.corr,
              fsub last.beta prev.beta⟩
        | none => none
      else some ⟨last.corr, last.beta, some 0, FV.fin 0⟩

/-- A float comparison `cell > t` on the correlation column: NaN compares
false. -/
def corrGT : Option ℝ → ℚ → Prop
  | some x, t => (t : ℝ) < x
  | none, _ => False

/-- A float comparison `cell > t` on the beta column: NaN compares false,
positive infinity is above every threshold, negative infinity below. -/
def betaGT : FV → ℚ → Prop
  | FV.fin q, t => t < q
  | FV.inf s, _ => s = true
  | FV.nan, _ => False

/-- Line 92 of `main`: `(latest_corr > 0.4) or (latest_beta > 0.4)`,
evaluated on the latest row of the metrics table. -/
noncomputable def alertOf (rows : List MRow) : Prop :=
  match rows.getLast? with
  | some r => corrGT r.corr (2/5) ∨ betaGT r.beta (2/5)
  | none => False

/-- The aligner's error taxonomy from the spec. -/
inductive AlignError where
  | ValidationError : AlignError
deriving DecidableEq

/-- Modelled from the spec: the duplicate-date check is absent from the
source (the spec declares the underlying library's behavior on duplicate
index labels undefined and prescribes an explicit check); per the spec,
`align` fails with `ValidationError` when either input series contains
duplicate dates, and otherwise returns the inner join. -/
def align (s b : Series) : Except AlignError (List Row) :=
  if (dates s).Nodup ∧ (dates b).Nodup then Except.ok (merge s b)
  else Except.error AlignError.ValidationError

/-- A varying return value: 1 on the first day, 0 afterwards. -/
def exVal (i : ℕ) : ℚ := if i = 0 then 1 else 0

/-- 60 aligned observations with strategy return equal to benchmark return
(both varying). -/
def exM60 : List Row := (List.range WINDOW).map (fun (i : ℕ) => ⟨i, exVal i, exVal i⟩)

/-- 60 aligned observations with benchmark return the negation of the
strategy return (both varying). -/
def exNeg : List Row := (List.range WINDOW).map (fun (i : ℕ) => ⟨i, exVal i, -exVal i⟩)

/-- 60 aligned observations with varying strategy return and a constant
(zero) benchmark. -/
def exFlat : List Row := (List.range WINDOW).map (fun (i : ℕ) => ⟨i, exVal i, 0⟩)

/-- A single aligned observation. -/
def exOne : List Row := [⟨0, 1, 1⟩]

/-- The metric rows of the spec's snapshot example, with one earlier row. -/
noncomputable def exRows : List MRow :=
  [⟨0, 0, 0, some 0.2, FV.fin 0.1⟩,
   ⟨1, 0, 0, some 0.30, FV.fin 0.20⟩,
   ⟨2, 0, 0, some 0.45, FV.fin 0.25⟩]

/-- Small concrete strategy series (dates 1, 3, 2). -/
def exS : Series := [(1, 10), (3, 20), (2, 30)]

/-- Small concrete benchmark series (dates 2, 3, 4). -/
def exB : Series := [(2, 50), (3, 60), (4, 70)]

/-- A permutation of `exS`. -/
def exSperm : Series := [(3, 20), (1, 10), (2, 30)]

/-- A permutation of `exB`. -/
def exBperm : Series := [(4, 70), (2, 50), (3, 60)]

/-- A series with a duplicated date. -/
def exDup : Series := [(1, 10), (1, 20)]

/-! ### Structural lemmas about the metrics table -/

theorem length_calcMetricsAligned (m : List Row) :
    (calcMetricsAligned m).length = m.length := by
  simp [calcMetricsAligned]

theorem getD_calcMetricsAligned (m : List Row) (i : ℕ) (hi : i < m.length) :
    (calcMetricsAligned m).getD i default =
      ⟨(m.getD i default).date, (m.getD i default).ret, (m.getD i default).twii,
        rcorr m i, rbeta m i⟩ := by
  have h : i < (calcMetricsAligned m).length := by
    rw [length_calcMetricsAligned]; exact hi
  rw [List.getD_eq_getElem _ _ h]
  unfold calcMetricsAligned
  simp

theorem mem_calcMetricsAligned (m : List Row) (r : MRow)
    (hr : r ∈ calcMetricsAligned m) :
    ∃ i, i < m.length ∧ r.corr = rcorr m i ∧ r.beta = rbeta m i := by
  unfold calcMetricsAligned at hr
  rw [List.mem_map] at hr
  obtain ⟨i, hi, rfl⟩ := hr
  rw [List.mem_range] at hi
  exact ⟨i, hi, rfl, rfl⟩

theorem getLast?_calcMetricsAligned (m : List Row) (h : m ≠ []) :
    (calcMetricsAligned m).getLast? =
      some ((calcMetricsAligned m).getD (m.length - 1) default) := by
  have hm : 0 < m.length := List.length_pos.mpr h
  have h1 : m.length - 1 < (calcMetricsAligned m).length := by
    rw [length_calcMetricsAligned]; omega
  rw [List.getLast?_eq_getElem?, length_calcMetricsAligned,
    List.getElem?_eq_getElem h1, List.getD_eq_getElem _ _ h1]

theorem rcov_none (l : List Row) (i : ℕ) (h : i + 1 < WINDOW) :
    rcov l i = none := by
  simp only [rcov, if_neg (Nat.not_le_of_lt h)]

theorem rvar_none (l : List Row) (i : ℕ) (h : i + 1 < WINDOW) :
    rvar l i = none := by
  simp only [rvar, if_neg (Nat.not_le_of_lt h)]

theorem rcorr_none (l : List Row) (i : ℕ) (h : i + 1 < WINDOW) :
    rcorr l i = none := by
  simp only [rcorr, if_neg (Nat.not_le_of_lt h)]

theorem rbeta_nan (l : List Row) (i : ℕ) (h : i + 1 < WINDOW) :
    rbeta l i = FV.nan := by
  simp only [rbeta, rcov_none l i h, rvar_none l i h, fdivO]

theorem length_winAt (l : List Row) (i : ℕ) (hw : WINDOW ≤ i + 1)
    (hi : i < l.length) : (winAt l i).length = WINDOW := by
  unfold winAt
  rw [List.length_drop, List.length_take, Nat.min_eq_left (by omega)]
  omega

theorem mem_of_mem_winAt (l : List Row) (i : ℕ) (r : Row)
    (hr : r ∈ winAt l i) : r ∈ l :=
  List.mem_of_mem_take (List.mem_of_mem_drop hr)

theorem length_retsAt (l : List Row) (i : ℕ) (hw : WINDOW ≤ i + 1)
    (hi : i < l.length) : (retsAt l i).length = WINDOW := by
  rw [retsAt, List.length_map]
  exact length_winAt l i hw hi

theorem length_twiisAt (l : List Row) (i : ℕ) (hw : WINDOW ≤ i + 1)
    (hi : i < l.length) : (twiisAt l i).length = WINDOW := by
  rw [twiisAt, List.length_map]
  exact length_winAt l i hw hi

theorem retsAt_length_eq (l : List Row) (i : ℕ) :
    (retsAt l i).length = (twiisAt l i).length := by
  rw [retsAt, twiisAt, List.length_map, List.length_map]

theorem winAt_last (m : List Row) (hlen : m.length = WINDOW) :
    winAt m (WINDOW - 1) = m := by
  unfold winAt
  have h1 : WINDOW - 1 + 1 = WINDOW := rfl
  rw [h1, ← hlen, List.take_length, Nat.sub_self, List.drop_zero]

/-! ### Lemmas about the windowed sample statistics -/

theorem svar_nonneg (xs : List ℚ) : 0 ≤ svar xs := by
  cases xs with
  | nil => simp [svar, mean]
  | cons a l =>
      apply div_nonneg
      · apply List.sum_nonneg
        intro q hq
        rw [List.mem_map] at hq
        obtain ⟨y, _, rfl⟩ := hq
        positivity
      · rw [List.length_cons]
        push_cast
        linarith [Nat.cast_nonneg (α := ℚ) l.length]

theorem sum_eq_zero_of_nonneg_mem (l : List ℚ) (h0 : ∀ x ∈ l, 0 ≤ x)
    (hs : l.sum = 0) : ∀ x ∈ l, x = 0 := by
  induction l with
  | nil => simp
  | cons a l ih =>
      have ha : 0 ≤ a := h0 a (by simp)
      have hl : 0 ≤ l.sum := List.sum_nonneg (fun x hx => h0 x (by simp [hx]))
      have hsum : a + l.sum = 0 := by simpa using hs
      intro x hx
      rcases List.mem_cons.mp hx with rfl | hx
      · linarith
      · exact ih (fun y hy => h0 y (by simp [hy])) (by linarith) x hx

theorem dev_eq_zero_of_svar_eq_zero (xs : List ℚ) (hn : 2 ≤ xs.length)
    (h : svar xs = 0) : ∀ x ∈ xs, x - mean xs = 0 := by
  have hc : ((xs.length : ℚ) - 1) ≠ 0 := by
    have h2 : (2 : ℚ) ≤ (xs.length : ℚ) := by exact_mod_cast hn
    linarith
  have hsum : ((xs.map (fun x => (x - mean xs) ^ 2)).sum) = 0 := by
    rcases div_eq_zero_iff.mp h with h1 | h1
    · exact h1
    · exact absurd h1 hc
  intro x hx
  have hz := sum_eq_zero_of_nonneg_mem _
    (by
      intro q hq
      rw [List.mem_map] at hq
      obtain ⟨y, _, rfl⟩ := hq
      positivity)
    hsum ((x - mean xs) ^ 2) (List.mem_map_of_mem _ hx)
  exact sq_eq_zero_iff.mp hz

theorem zip_dev_sum_zero (xs ys : List ℚ) (f : ℚ → ℚ) (g : ℚ → ℚ)
    (h : ∀ y ∈ ys, g y = 0) :
    (List.zipWith (fun x y => f x * g y) xs ys).sum = 0 := by
  induction xs generalizing ys with
  | nil => simp
  | cons a l ih =>
      cases ys with
      | nil => simp
      | cons b ys =>
          rw [List.zipWith_cons_cons, List.sum_cons,
            h b (by simp), ih ys (fun y hy => h y (by simp [hy]))]
          ring

theorem scov_eq_zero_of_right_flat (xs ys : List ℚ) (hn : 2 ≤ ys.length)
    (h : svar ys = 0) : scov xs ys = 0 := by
  unfold scov
  rw [zip_dev_sum_zero xs ys (fun x => x - mean xs) (fun y => y - mean ys)
    (dev_eq_zero_of_svar_eq_zero ys hn h), zero_div]

theorem list_sum_eq_sum_range (l : List ℚ) :
    l.sum = ∑ i ∈ Finset.range l.length, l.getD i 0 := by
  induction l with
  | nil => simp
  | cons a l ih =>
      rw [List.sum_cons, ih, List.length_cons, Finset.sum_range_succ']
      simp only [List.getD_cons_succ, List.getD_cons_zero]
      rw [add_comm]

theorem map_sum_eq_sum_range (l : List ℚ) (f : ℚ → ℚ) :
    (l.map f).sum = ∑ i ∈ Finset.range l.length, f (l.getD i 0) := by
  rw [list_sum_eq_sum_range, List.length_map]
  apply Finset.sum_congr rfl
  intro i hi
  rw [Finset.mem_range] at hi
  have h1 : i < (l.map f).length := by rw [List.length_map]; exact hi
  rw [List.getD_eq_getElem _ _ h1, List.getElem_map,
    List.getD_eq_getElem _ _ hi]

theorem zip_mul_sum_sq_le (xs ys : List ℚ) (hlen : xs.length = ys.length) :
    ((List.zipWith (fun x y => x * y) xs ys).sum) ^ 2 ≤
      ((xs.map (fun x => x ^ 2)).sum) * ((ys.map (fun y => y ^ 2)).sum) := by
  have hzl : (List.zipWith (fun x y => x * y) xs ys).length = xs.length := by
    rw [List.length_zipWith, ← hlen, Nat.min_self]
  have h1 : (List.zipWith (fun x y => x * y) xs ys).sum =
      ∑ i ∈ Finset.range xs.length, xs.getD i 0 * ys.getD i 0 := by
    rw [list_sum_eq_sum_range, hzl]
    apply Finset.sum_congr rfl
    intro i hi
    rw [Finset.mem_range] at hi
    have hiz : i < (List.zipWith (fun x y => x * y) xs ys).length := by
      rw [hzl]; exact hi
    have hiy : i < ys.length := by omega
    rw [List.getD_eq_getElem _ _ hiz, List.getElem_zipWith,
      List.getD_eq_getElem _ _ hi, List.getD_eq_getElem _ _ hiy]
  rw [h1, map_sum_eq_sum_range, map_sum_eq_sum_range, ← hlen]
  exact Finset.sum_mul_sq_le_sq_mul_sq (Finset.range xs.length)
    (fun i => xs.getD i 0) (fun i => ys.getD i 0)

theorem scov_sq_le (xs ys : List ℚ) (hlen : xs.length = ys.length) :
    scov xs ys ^ 2 ≤ svar xs * svar ys := by
  have hnum : (List.zipWith (fun x y => (x - mean xs) * (y - mean ys)) xs ys) =
      List.zipWith (fun x y => x * y)
        (xs.map (fun x => x - mean xs)) (ys.map (fun y => y - mean ys)) := by
    rw [List.zipWith_map (fun x y => x * y) (fun x => x - mean xs)
      (fun y => y - mean ys) xs ys]
  have hA : xs.map (fun x => (x - mean xs) ^ 2) =
      (xs.map (fun x => x - mean xs)).map (fun x => x ^ 2) := by
    rw [List.map_map]; rfl
  have hB : ys.map (fun y => (y - mean ys) ^ 2) =
      (ys.map (fun y => y - mean ys)).map (fun y => y ^ 2) := by
    rw [List.map_map]; rfl
  have hcs := zip_mul_sum_sq_le (xs.map (fun x => x - mean xs))
    (ys.map (fun y => y - mean ys))
    (by rw [List.length_map, List.length_map, hlen])
  unfold scov svar
  rw [hnum, hA, hB, ← hlen]
  rw [div_pow, div_mul_div_comm, ← sq]
  exact div_le_div_of_nonneg_right hcs (sq_nonneg _)

theorem svar_ne_zero_of_two_ne (xs : List ℚ) (hn : 2 ≤ xs.length)
    (x y : ℚ) (hx : x ∈ xs) (hy : y ∈ xs) (hxy : x ≠ y) : svar xs ≠ 0 := by
  intro h
  have hdev := dev_eq_zero_of_svar_eq_zero xs hn h
  have h1 := hdev x hx
  have h2 := hdev y hy
  apply hxy
  linarith

theorem sum_const_list (xs : List ℚ) (c : ℚ) (h : ∀ x ∈ xs, x = c) :
    xs.sum = c * xs.length := by
  induction xs with
  | nil => simp
  | cons a l ih =>
      rw [List.sum_cons, ih (fun x hx => h x (by simp [hx])), h a (by simp),
        List.length_cons]
      push_cast
      ring

theorem mean_const (xs : List ℚ) (c : ℚ) (hne : xs ≠ [])
    (h : ∀ x ∈ xs, x = c) : mean xs = c := by
  unfold mean
  rw [sum_const_list xs c h]
  have hn : (xs.length : ℚ) ≠ 0 := by
    have h1 : 0 < xs.length := List.length_pos.mpr hne
    exact_mod_cast Nat.pos_iff_ne_zero.mp h1
  field_simp

theorem svar_const (xs : List ℚ) (c : ℚ) (h : ∀ x ∈ xs, x = c) :
    svar xs = 0 := by
  cases hxs : xs with
  | nil => simp [svar, mean]
  | cons a l =>
      rw [← hxs]
      have hne : xs ≠ [] := by rw [hxs]; simp
      unfold svar
      rw [List.sum_eq_zero, zero_div]
      intro q hq
      rw [List.mem_map] at hq
      obtain ⟨z, hz, rfl⟩ := hq
      rw [h z hz, mean_const xs c hne h]
      ring

theorem corr_abs_le_one (xs ys : List ℚ) (hlen : xs.length = ys.length)
    (hx : svar xs ≠ 0) (hy : svar ys ≠ 0) :
    |(scov xs ys : ℝ) / Real.sqrt ((svar xs : ℝ) * (svar ys : ℝ))| ≤ 1 := by
  have hx0 : (0 : ℝ) < (svar xs : ℝ) := by
    have h1 := svar_nonneg xs
    have h2 : (0 : ℝ) ≤ (svar xs : ℝ) := by exact_mod_cast h1
    have h3 : (svar xs : ℝ) ≠ 0 := by exact_mod_cast hx
    exact lt_of_le_of_ne h2 (Ne.symm h3)
  have hy0 : (0 : ℝ) < (svar ys : ℝ) := by
    have h1 := svar_nonneg ys
    have h2 : (0 : ℝ) ≤ (svar ys : ℝ) := by exact_mod_cast h1
    have h3 : (svar ys : ℝ) ≠ 0 := by exact_mod_cast hy
    exact lt_of_le_of_ne h2 (Ne.symm h3)
  have hprod : (0 : ℝ) < (svar xs : ℝ) * (svar ys : ℝ) := mul_pos hx0 hy0
  have hs : 0 < Real.sqrt ((svar xs : ℝ) * (svar ys : ℝ)) :=
    Real.sqrt_pos.mpr hprod
  have hcs : (scov xs ys : ℝ) ^ 2 ≤ (svar xs : ℝ) * (svar ys : ℝ) := by
    exact_mod_cast scov_sq_le xs ys hlen
  have habs : |(scov xs ys : ℝ)| ≤ Real.sqrt ((svar xs : ℝ) * (svar ys : ℝ)) := by
    calc |(scov xs ys : ℝ)| = Real.sqrt ((scov xs ys : ℝ) ^ 2) :=
          (Real.sqrt_sq_eq_abs _).symm
      _ ≤ Real.sqrt ((svar xs : ℝ) * (svar ys : ℝ)) := Real.sqrt_le_sqrt hcs
  rw [abs_div, abs_of_pos hs, div_le_one hs]
  exact habs

theorem sum_map_neg_eq (l : List ℚ) (f : ℚ → ℚ) :
    (l.map (fun x => -f x)).sum = -(l.map f).sum := by
  induction l with
  | nil => simp
  | cons a l ih =>
      rw [List.map_cons, List.map_cons, List.sum_cons, List.sum_cons, ih]
      ring

theorem mean_map_neg (xs : List ℚ) :
    mean (xs.map (fun x => -x)) = -mean xs := by
  unfold mean
  rw [List.length_map]
  have h1 : (xs.map (fun x => -x)).sum = -xs.sum := by
    have h2 := sum_map_neg_eq xs (fun x => x)
    simpa using h2
  rw [h1, neg_div]

theorem svar_map_neg (xs : List ℚ) :
    svar (xs.map (fun x => -x)) = svar xs := by
  unfold svar
  rw [List.length_map, mean_map_neg, List.map_map]
  congr 1
  refine congrArg List.sum ?_
  apply List.map_congr_left
  intro a _
  simp only [Function.comp]
  ring

theorem zipWith_self_eq_map (f : ℚ → ℚ → ℚ) (l : List ℚ) :
    List.zipWith f l l = l.map (fun x => f x x) := by
  induction l with
  | nil => rfl
  | cons a l ih => rw [List.zipWith_cons_cons, List.map_cons, ih]

theorem scov_self (xs : List ℚ) : scov xs xs = svar xs := by
  unfold scov svar
  rw [zipWith_self_eq_map]
  congr 1
  refine congrArg List.sum ?_
  apply List.map_congr_left
  intro a _
  ring

theorem fdivO_some_some (a b : ℚ) :
    fdivO (some a) (some b) =
      if b = 0 then (if a = 0 then FV.nan else FV.inf (decide (0 < a)))
      else FV.fin (a / b) := rfl

theorem scov_map_neg_right (xs : List ℚ) :
    scov xs (xs.map (fun x => -x)) = -svar xs := by
  unfold scov svar
  rw [List.zipWith_map_right, mean_map_neg, zipWith_self_eq_map]
  have h1 : xs.map (fun a => (a - mean xs) * (-a - -mean xs)) =
      xs.map (fun a => -((a - mean xs) ^ 2)) := by
    apply List.map_congr_left
    intro a _
    ring
  rw [h1, sum_map_neg_eq xs (fun a => (a - mean xs) ^ 2), neg_div]

/-! ### The rolling columns on identical and negated column pairs -/

theorem twiisAt_eq_retsAt (m : List Row) (i : ℕ)
    (h : ∀ r ∈ m, r.ret = r.twii) : twiisAt m i = retsAt m i := by
  unfold twiisAt retsAt
  apply List.map_congr_left
  intro r hr
  exact (h r (mem_of_mem_winAt m i r hr)).symm

theorem twiisAt_eq_neg_retsAt (m : List Row) (i : ℕ)
    (h : ∀ r ∈ m, r.twii = -r.ret) :
    twiisAt m i = (retsAt m i).map (fun x => -x) := by
  unfold twiisAt retsAt
  rw [List.map_map]
  apply List.map_congr_left
  intro r hr
  exact h r (mem_of_mem_winAt m i r hr)

theorem rcorr_identical (m : List Row) (i : ℕ)
    (h : ∀ r ∈ m, r.ret = r.twii) (hw : WINDOW ≤ i + 1)
    (hv : svar (retsAt m i) ≠ 0) : rcorr m i = some 1 := by
  have ht := twiisAt_eq_retsAt m i h
  have hpos : (0 : ℝ) < (svar (retsAt m i) : ℝ) := by
    have h1 := svar_nonneg (retsAt m i)
    have h2 : (0 : ℝ) ≤ (svar (retsAt m i) : ℝ) := by exact_mod_cast h1
    have h3 : (svar (retsAt m i) : ℝ) ≠ 0 := by exact_mod_cast hv
    exact lt_of_le_of_ne h2 (Ne.symm h3)
  unfold rcorr
  rw [if_pos hw, ht, scov_self, if_neg (by push_neg; exact ⟨hv, hv⟩)]
  rw [Real.sqrt_mul_self (le_of_lt hpos)]
  rw [div_self (ne_of_gt hpos)]

theorem rbeta_identical (m : List Row) (i : ℕ)
    (h : ∀ r ∈ m, r.ret = r.twii) (hw : WINDOW ≤ i + 1)
    (hv : svar (retsAt m i) ≠ 0) : rbeta m i = FV.fin 1 := by
  have ht := twiisAt_eq_retsAt m i h
  unfold rbeta rcov rvar
  rw [if_pos hw, if_pos hw, ht, scov_self]
  rw [fdivO_some_some, if_neg hv, div_self hv]

theorem rcorr_negated (m : List Row) (i : ℕ)
    (h : ∀ r ∈ m, r.twii = -r.ret) (hw : WINDOW ≤ i + 1)
    (hv : svar (retsAt m i) ≠ 0) : rcorr m i = some (-1) := by
  have ht := twiisAt_eq_neg_retsAt m i h
  have hpos : (0 : ℝ) < (svar (retsAt m i) : ℝ) := by
    have h1 := svar_nonneg (retsAt m i)
    have h2 : (0 : ℝ) ≤ (svar (retsAt m i) : ℝ) := by exact_mod_cast h1
    have h3 : (svar (retsAt m i) : ℝ) ≠ 0 := by exact_mod_cast hv
    exact lt_of_le_of_ne h2 (Ne.symm h3)
  unfold rcorr
  rw [if_pos hw, ht, scov_map_neg_right, svar_map_neg,
    if_neg (by push_neg; exact ⟨hv, hv⟩)]
  rw [Real.sqrt_mul_self (le_of_lt hpos)]
  push_cast
  rw [neg_div, div_self (ne_of_gt hpos)]

theorem rbeta_negated (m : List Row) (i : ℕ)
    (h : ∀ r ∈ m, r.twii = -r.ret) (hw : WINDOW ≤ i + 1)
    (hv : svar (retsAt m i) ≠ 0) : rbeta m i = FV.fin (-1) := by
  have ht := twiisAt_eq_neg_retsAt m i h
  unfold rbeta rcov rvar
  rw [if_pos hw, if_pos hw, ht, scov_map_neg_right, svar_map_neg]
  rw [fdivO_some_some, if_neg hv, neg_div, div_self hv]

/-! ### Lemmas about the aligner -/

theorem mem_insertAsc (d x : Date) (l : List Date) :
    x ∈ insertAsc d l ↔ x = d ∨ x ∈ l := by
  induction l with
  | nil => simp [insertAsc]
  | cons a l ih =>
      unfold insertAsc
      by_cases h1 : d < a
      · rw [if_pos h1]
        simp [List.mem_cons]
      · by_cases h2 : d = a
        · subst h2
          rw [if_neg h1, if_pos rfl]
          simp only [List.mem_cons]
          tauto
        · rw [if_neg h1, if_neg h2]
          simp only [List.mem_cons, ih]
          tauto

theorem mem_sortedDedup (l : List Date) (x : Date) :
    x ∈ sortedDedup l ↔ x ∈ l := by
  induction l with
  | nil => simp [sortedDedup]
  | cons a l ih =>
      unfold sortedDedup at *
      rw [List.foldr_cons, mem_insertAsc, ih, List.mem_cons]

theorem pairwise_insertAsc (d : Date) (l : List Date)
    (h : l.Pairwise (· < ·)) : (insertAsc d l).Pairwise (· < ·) := by
  induction l with
  | nil => simp [insertAsc]
  | cons a l ih =>
      rw [List.pairwise_cons] at h
      obtain ⟨ha, hl⟩ := h
      unfold insertAsc
      by_cases h1 : d < a
      · rw [if_pos h1, List.pairwise_cons]
        constructor
        · intro x hx
          rcases List.mem_cons.mp hx with rfl | hx
          · exact h1
          · exact lt_trans h1 (ha x hx)
        · rw [List.pairwise_cons]
          exact ⟨ha, hl⟩
      · by_cases h2 : d = a
        · rw [if_neg h1, if_pos h2, List.pairwise_cons]
          exact ⟨ha, hl⟩
        · rw [if_neg h1, if_neg h2, List.pairwise_cons]
          constructor
          · intro x hx
            rcases (mem_insertAsc d x l).mp hx with rfl | hx
            · exact lt_of_le_of_ne (le_of_not_lt h1) (Ne.symm h2)
            · exact ha x hx
          · exact ih hl

theorem pairwise_sortedDedup (l : List Date) :
    (sortedDedup l).Pairwise (· < ·) := by
  induction l with
  | nil => simp [sortedDedup]
  | cons a l ih =>
      unfold sortedDedup at *
      rw [List.foldr_cons]
      exact pairwise_insertAsc a _ ih

theorem sorted_eq_of_mem_iff : ∀ (l₁ l₂ : List Date), l₁.Pairwise (· < ·) →
    l₂.Pairwise (· < ·) → (∀ x, x ∈ l₁ ↔ x ∈ l₂) → l₁ = l₂ := by
  intro l₁
  induction l₁ with
  | nil =>
      intro l₂ _ _ hm
      cases l₂ with
      | nil => rfl
      | cons b l₂ => exact absurd ((hm b).mpr (by simp)) (by simp)
  | cons a l₁ ih =>
      intro l₂ h1 h2 hm
      cases l₂ with
      | nil => exact absurd ((hm a).mp (by simp)) (by simp)
      | cons b l₂ =>
          rw [List.pairwise_cons] at h1 h2
          have hab : a = b := by
            have ha2 : a ∈ b :: l₂ := (hm a).mp (by simp)
            have hb1 : b ∈ a :: l₁ := (hm b).mpr (by simp)
            rcases List.mem_cons.mp ha2 with h | h
            · exact h
            · rcases List.mem_cons.mp hb1 with h3 | h3
              · exact h3.symm
              · have h4 := h1.1 b h3
                have h5 := h2.1 a h
                exact absurd (lt_trans h4 h5) (lt_irrefl a)
          subst hab
          congr 1
          apply ih l₂ h1.2 h2.2
          intro x
          constructor
          · intro hx
            have hax := h1.1 x hx
            have h6 : x ∈ a :: l₂ := (hm x).mp (by simp [hx])
            rcases List.mem_cons.mp h6 with rfl | h7
            · exact absurd hax (lt_irrefl x)
            · exact h7
          · intro hx
            have hax := h2.1 x hx
            have h6 : x ∈ a :: l₁ := (hm x).mpr (by simp [hx])
            rcases List.mem_cons.mp h6 with rfl | h7
            · exact absurd hax (lt_irrefl x)
            · exact h7

theorem lookup_isSome_of_mem (s : Series) (d : Date) (h : d ∈ dates s) :
    ∃ v, lookup s d = some v := by
  unfold lookup
  rw [dates, List.mem_map] at h
  obtain ⟨p, hp, rfl⟩ := h
  cases hfind : s.find? (fun q => q.1 == p.1) with
  | none =>
      rw [List.find?_eq_none] at hfind
      exact absurd (by simp : (p.1 == p.1) = true) (hfind p hp)
  | some q => exact ⟨q.2, rfl⟩

theorem lookup_none_of_not_mem (s : Series) (d : Date) (h : d ∉ dates s) :
    lookup s d = none := by
  unfold lookup
  rw [List.find?_eq_none.mpr]
  · rfl
  · intro p hp hbeq
    apply h
    rw [dates, List.mem_map]
    rw [beq_iff_eq] at hbeq
    exact ⟨p, hp, hbeq⟩

theorem lookup_eq_some_iff (s : Series) (d : Date) (v : ℚ)
    (hs : (dates s).Nodup) : lookup s d = some v ↔ (d, v) ∈ s := by
  induction s with
  | nil => simp [lookup]
  | cons p s ih =>
      rw [dates, List.map_cons, List.nodup_cons] at hs
      obtain ⟨hp, hs⟩ := hs
      unfold lookup
      by_cases h1 : p.1 = d
      · rw [List.find?_cons_of_pos _ (by rw [beq_iff_eq]; exact h1)]
        constructor
        · intro hv
          have hv2 : p.2 = v := by
            have h3 : (some p.2 : Option ℚ) = some v := hv
            injection h3
          rw [List.mem_cons]
          left
          rw [← h1, ← hv2]
        · intro hd
          rcases List.mem_cons.mp hd with hd | hd
          · rw [← hd]
            rfl
          · exfalso
            apply hp
            rw [← h1] at hd
            have h9 : ((p.1, v) : Date × ℚ).1 ∈ List.map Prod.fst s :=
              List.mem_map_of_mem Prod.fst hd
            exact h9
      · rw [List.find?_cons_of_neg _ (by rw [beq_iff_eq]; exact h1)]
        have ihs := ih hs
        unfold lookup at ihs
        rw [ihs, List.mem_cons]
        constructor
        · intro h2
          exact Or.inr h2
        · intro h2
          rcases h2 with h2 | h2
          · exact absurd (congrArg Prod.fst h2).symm h1
          · exact h2

theorem lookup_eq_none_iff (s : Series) (d : Date) :
    lookup s d = none ↔ d ∉ dates s := by
  constructor
  · intro h hm
    obtain ⟨v, hv⟩ := lookup_isSome_of_mem s d hm
    rw [h] at hv
    cases hv
  · exact lookup_none_of_not_mem s d

theorem lookup_perm (s t : Series) (hperm : s.Perm t)
    (hs : (dates s).Nodup) (d : Date) : lookup s d = lookup t d := by
  have ht : (dates t).Nodup := (hperm.map Prod.fst).nodup_iff.mp hs
  cases hls : lookup s d with
  | some v =>
      rw [lookup_eq_some_iff s d v hs] at hls
      exact ((lookup_eq_some_iff t d v ht).mpr (hperm.mem_iff.mp hls)).symm
  | none =>
      rw [lookup_eq_none_iff] at hls
      rw [(lookup_eq_none_iff t d).mpr]
      intro hm
      apply hls
      rw [dates] at hm ⊢
      exact (hperm.map Prod.fst).mem_iff.mpr hm

theorem mkRow_eq_some (s b : Series) (d : Date) (r : Row)
    (h : mkRow s b d = some r) :
    r.date = d ∧ lookup s d = some r.ret ∧ lookup b d = some r.twii := by
  unfold mkRow at h
  cases hs : lookup s d with
  | none => rw [hs] at h; cases h
  | some x =>
      cases hb : lookup b d with
      | none => rw [hs, hb] at h; cases h
      | some y =>
          rw [hs, hb] at h
          cases h
          exact ⟨rfl, rfl, rfl⟩

theorem mkRow_eq_some_of_mem (s b : Series) (d : Date)
    (hds : d ∈ dates s) (hdb : d ∈ dates b) :
    ∃ r, mkRow s b d = some r ∧ r.date = d := by
  obtain ⟨x, hx⟩ := lookup_isSome_of_mem s d hds
  obtain ⟨y, hy⟩ := lookup_isSome_of_mem b d hdb
  refine ⟨⟨d, x, y⟩, ?_, rfl⟩
  unfold mkRow
  rw [hx, hy]

theorem mem_dates_merge (s b : Series) (d : Date) :
    d ∈ (merge s b).map Row.date ↔ d ∈ dates s ∧ d ∈ dates b := by
  unfold merge
  rw [List.mem_map]
  constructor
  · rintro ⟨r, hr, rfl⟩
    rw [List.mem_filterMap] at hr
    obtain ⟨d₀, hd₀, hfd⟩ := hr
    obtain ⟨hdate, hls, hlb⟩ := mkRow_eq_some (s := s) (b := b) (d := d₀) r hfd
    rw [mem_sortedDedup, List.mem_filter] at hd₀
    rw [hdate]
    refine ⟨hd₀.1, ?_⟩
    have h1 : (dates b).contains d₀ = true := hd₀.2
    exact List.elem_iff.mp h1
  · rintro ⟨hds, hdb⟩
    obtain ⟨r, hr, hdate⟩ := mkRow_eq_some_of_mem s b d hds hdb
    refine ⟨r, ?_, hdate⟩
    rw [List.mem_filterMap]
    refine ⟨d, ?_, hr⟩
    rw [mem_sortedDedup, List.mem_filter]
    exact ⟨hds, List.elem_iff.mpr hdb⟩

theorem merge_values (s b : Series) (r : Row) (hr : r ∈ merge s b) :
    lookup s r.date = some r.ret ∧ lookup b r.date = some r.twii := by
  unfold merge at hr
  rw [List.mem_filterMap] at hr
  obtain ⟨d₀, _, hfd⟩ := hr
  obtain ⟨hdate, hls, hlb⟩ := mkRow_eq_some (s := s) (b := b) (d := d₀) r hfd
  rw [hdate]
  exact ⟨hls, hlb⟩

theorem merge_sorted (s b : Series) :
    ((merge s b).map Row.date).Pairwise (· < ·) := by
  unfold merge
  rw [List.pairwise_map, List.pairwise_filterMap]
  apply List.Pairwise.imp ?_
    (pairwise_sortedDedup ((dates s).filter (fun d => (dates b).contains d)))
  intro d d₀ hdd r hr r₀ hr₀
  rw [Option.mem_def] at hr hr₀
  rw [(mkRow_eq_some s b d r hr).1, (mkRow_eq_some s b d₀ r₀ hr₀).1]
  exact hdd

theorem merge_perm (s t b c : Series) (hst : t.Perm s) (hbc : c.Perm b)
    (hs : (dates s).Nodup) (hb : (dates b).Nodup) :
    merge t c = merge s b := by
  have hts : (dates t).Nodup := (hst.map Prod.fst).nodup_iff.mpr hs
  have htc : (dates c).Nodup := (hbc.map Prod.fst).nodup_iff.mpr hb
  have hls : ∀ d, lookup t d = lookup s d := fun d =>
    lookup_perm t s hst hts d
  have hlb : ∀ d, lookup c d = lookup b d := fun d =>
    lookup_perm c b hbc htc d
  have hfun : mkRow t c = mkRow s b := by
    funext d
    unfold mkRow
    rw [hls d, hlb d]
  have hd : sortedDedup ((dates t).filter (fun d => (dates c).contains d)) =
      sortedDedup ((dates s).filter (fun d => (dates b).contains d)) := by
    apply sorted_eq_of_mem_iff _ _ (pairwise_sortedDedup _)
      (pairwise_sortedDedup _)
    intro x
    rw [mem_sortedDedup, mem_sortedDedup, List.mem_filter, List.mem_filter]
    have h1 : x ∈ dates t ↔ x ∈ dates s := (hst.map Prod.fst).mem_iff
    have h2 : ((dates c).contains x = true) ↔ ((dates b).contains x = true) := by
      rw [List.elem_iff, List.elem_iff]
      exact (hbc.map Prod.fst).mem_iff
    rw [h1, h2]
  unfold merge
  rw [hfun, hd]

/-! ### Lemmas about the snapshot -/

theorem subO_none_right (x : Option ℝ) : subO x none = none := by
  cases x <;> rfl

theorem fsub_nan_right (x : FV) : fsub x FV.nan = FV.nan := by
  cases x <;> rfl

theorem dropLast_range (n : ℕ) : (List.range n).dropLast = List.range (n - 1) := by
  cases n with
  | zero => rfl
  | succ k =>
      rw [List.range_succ, List.dropLast_concat, Nat.add_sub_cancel]

theorem snapshot_eq (rows : List MRow) (last prev : MRow)
    (h1 : rows.getLast? = some last) (h2 : rows.dropLast.getLast? = some prev)
    (hlen : 1 < rows.length) :
    snapshot rows =
      some ⟨last.corr, last.beta, subO last.corr prev.corr,
        fsub last.beta prev.beta⟩ := by
  unfold snapshot
  split
  · rename_i heq
    rw [h1] at heq
    cases heq
  · rename_i l2 heq
    rw [h1] at heq
    injection heq with heq
    subst heq
    rw [if_pos hlen]
    split
    · rename_i p2 heq2
      rw [h2] at heq2
      injection heq2 with heq2
      subst heq2
      rfl
    · rename_i heq2
      rw [h2] at heq2
      cases heq2

theorem getLast?_dropLast_calcMetricsAligned (m : List Row) (h2 : 2 ≤ m.length) :
    (calcMetricsAligned m).dropLast.getLast? =
      some ⟨(m.getD (m.length - 2) default).date, (m.getD (m.length - 2) default).ret,
        (m.getD (m.length - 2) default).twii,
        rcorr m (m.length - 2), rbeta m (m.length - 2)⟩ := by
  unfold calcMetricsAligned
  rw [← List.map_dropLast, dropLast_range]
  have hlt : m.length - 1 - 1 < (List.range (m.length - 1)).length := by
    rw [List.length_range]; omega
  have hlt2 : m.length - 1 - 1 <
      ((List.range (m.length - 1)).map (fun i =>
        (⟨(m.getD i default).date, (m.getD i default).ret, (m.getD i default).twii,
          rcorr m i, rbeta m i⟩ : MRow))).length := by
    rw [List.length_map]; exact hlt
  rw [List.getLast?_eq_getElem?, List.length_map, List.length_range,
    List.getElem?_eq_getElem hlt2, List.getElem_map, List.getElem_range]
  rw [show m.length - 1 - 1 = m.length - 2 from by omega]

theorem snapshot_calcMetricsAligned (m : List Row) (h2 : 2 ≤ m.length) :
    snapshot (calcMetricsAligned m) =
      some ⟨rcorr m (m.length - 1), rbeta m (m.length - 1),
        subO (rcorr m (m.length - 1)) (rcorr m (m.length - 2)),
        fsub (rbeta m (m.length - 1)) (rbeta m (m.length - 2))⟩ := by
  have hne : m ≠ [] := by
    intro h
    rw [h] at h2
    simp at h2
  have hlast := getLast?_calcMetricsAligned m hne
  rw [getD_calcMetricsAligned m (m.length - 1) (by omega)] at hlast
  have hprev := getLast?_dropLast_calcMetricsAligned m h2
  have hlen : 1 < (calcMetricsAligned m).length := by
    rw [length_calcMetricsAligned]; omega
  rw [snapshot_eq _ _ _ hlast hprev hlen]

/-! ### Facts about the concrete examples -/

theorem exM60_length : exM60.length = WINDOW := by
  unfold exM60
  rw [List.length_map, List.length_range]

theorem exM60_identical : ∀ r ∈ exM60, r.ret = r.twii := by
  intro r hr
  unfold exM60 at hr
  rw [List.mem_map] at hr
  obtain ⟨i, _, rfl⟩ := hr
  rfl

theorem exM60_rets : retsAt exM60 (WINDOW - 1) = exM60.map Row.ret := by
  unfold retsAt
  rw [winAt_last exM60 exM60_length]

theorem exM60_ret_mem1 : (1 : ℚ) ∈ exM60.map Row.ret := by
  unfold exM60
  rw [List.map_map, List.mem_map]
  refine ⟨0, ?_, rfl⟩
  rw [List.mem_range]
  norm_num [WINDOW]

theorem exM60_ret_mem0 : (0 : ℚ) ∈ exM60.map Row.ret := by
  unfold exM60
  rw [List.map_map, List.mem_map]
  refine ⟨1, ?_, rfl⟩
  rw [List.mem_range]
  norm_num [WINDOW]

theorem exM60_svar_ne : svar (exM60.map Row.ret) ≠ 0 := by
  apply svar_ne_zero_of_two_ne _ ?_ 1 0 exM60_ret_mem1 exM60_ret_mem0 (by norm_num)
  rw [List.length_map, exM60_length]
  norm_num [WINDOW]

theorem exM60_twii_eq_ret : exM60.map Row.twii = exM60.map Row.ret := by
  apply List.map_congr_left
  intro r hr
  exact (exM60_identical r hr).symm

theorem exNeg_length : exNeg.length = WINDOW := by
  unfold exNeg
  rw [List.length_map, List.length_range]

theorem exNeg_negated : ∀ r ∈ exNeg, r.twii = -r.ret := by
  intro r hr
  unfold exNeg at hr
  rw [List.mem_map] at hr
  obtain ⟨i, _, rfl⟩ := hr
  rfl

theorem exNeg_rets : retsAt exNeg (WINDOW - 1) = exNeg.map Row.ret := by
  unfold retsAt
  rw [winAt_last exNeg exNeg_length]

theorem exNeg_ret_mem1 : (1 : ℚ) ∈ exNeg.map Row.ret := by
  unfold exNeg
  rw [List.map_map, List.mem_map]
  refine ⟨0, ?_, rfl⟩
  rw [List.mem_range]
  norm_num [WINDOW]

theorem exNeg_ret_mem0 : (0 : ℚ) ∈ exNeg.map Row.ret := by
  unfold exNeg
  rw [List.map_map, List.mem_map]
  refine ⟨1, ?_, rfl⟩
  rw [List.mem_range]
  norm_num [WINDOW]

theorem exNeg_svar_ne : svar (exNeg.map Row.ret) ≠ 0 := by
  apply svar_ne_zero_of_two_ne _ ?_ 1 0 exNeg_ret_mem1 exNeg_ret_mem0 (by norm_num)
  rw [List.length_map, exNeg_length]
  norm_num [WINDOW]

theorem exFlat_length : exFlat.length = WINDOW := by
  unfold exFlat
  rw [List.length_map, List.length_range]

theorem exFlat_twii_const : ∀ y ∈ twiisAt exFlat (WINDOW - 1), y = 0 := by
  intro y hy
  unfold twiisAt at hy
  rw [List.mem_map] at hy
  obtain ⟨r, hr, rfl⟩ := hy
  have hm := mem_of_mem_winAt exFlat (WINDOW - 1) r hr
  unfold exFlat at hm
  rw [List.mem_map] at hm
  obtain ⟨i, _, rfl⟩ := hm
  rfl

theorem exFlat_svar0 : svar (twiisAt exFlat (WINDOW - 1)) = 0 :=
  svar_const _ 0 exFlat_twii_const

/-! ### Lemmas about the alert condition -/

theorem alertOf_eq (rows : List MRow) (r : MRow) (h : rows.getLast? = some r) :
    alertOf rows ↔ (corrGT r.corr (2/5) ∨ betaGT r.beta (2/5)) := by
  unfold alertOf
  split
  · rename_i r2 heq
    rw [h] at heq
    injection heq with heq
    subst heq
    exact Iff.rfl
  · rename_i heq
    rw [h] at heq
    cases heq

theorem corrGT_some (x : ℝ) (t : ℚ) : corrGT (some x) t ↔ (t : ℝ) < x :=
  Iff.rfl

theorem betaGT_fin (q t : ℚ) : betaGT (FV.fin q) t ↔ t < q :=
  Iff.rfl

/-! ### The claims -/

/-- C2: for every strategy series and benchmark series with unique dates,
the aligned table contains a row for date d iff d is in both series; the
row at d carries exactly the strategy value and the benchmark value stored
at d; and the table is strictly ascending by date. -/
theorem claim_C2_alignment (s b : Series)
    (hs : (dates s).Nodup) (hb : (dates b).Nodup) :
    (∀ d : Date, d ∈ (merge s b).map Row.date ↔ d ∈ dates s ∧ d ∈ dates b) ∧
    (∀ r ∈ merge s b,
      lookup s r.date = some r.ret ∧ lookup b r.date = some r.twii) ∧
    ((merge s b).map Row.date).Pairwise (· < ·) :=
  ⟨fun d => mem_dates_merge s b d, fun r hr => merge_values s b r hr,
    merge_sorted s b⟩

/-- Witness for C2 at a concrete pair of series and a concrete date. -/
theorem claim_C2_alignment_witness :
    ((2 : Date) ∈ (merge exS exB).map Row.date ↔
      (2 : Date) ∈ dates exS ∧ (2 : Date) ∈ dates exB) ∧
    (lookup exS (2 : Date) = some 30 ∧ lookup exB (2 : Date) = some 50) ∧
    ((merge exS exB).map Row.date).Pairwise (· < ·) :=
  ⟨(claim_C2_alignment exS exB (by decide) (by decide)).1 2,
   (claim_C2_alignment exS exB (by decide) (by decide)).2.1
     ⟨2, 30, 50⟩ (by decide),
   (claim_C2_alignment exS exB (by decide) (by decide)).2.2⟩

/-- C7: if either input series contains two entries with the same date, the
aligner fails with a ValidationError instead of producing a result. -/
theorem claim_C7_duplicate_dates (s b : Series)
    (h : ¬ (dates s).Nodup ∨ ¬ (dates b).Nodup) :
    align s b = Except.error AlignError.ValidationError := by
  unfold align
  rw [if_neg]
  tauto

/-- Witness for C7 at a series with a duplicated date. -/
theorem claim_C7_duplicate_dates_witness :
    align exDup exB = Except.error AlignError.ValidationError :=
  claim_C7_duplicate_dates exDup exB (Or.inl (by decide))

/-- C8: the aligner and the metrics computation are pure functions —
two calls on the same inputs give the same output — and for series with
unique dates the result is invariant under reordering of the inputs. -/
theorem claim_C8_determinism (s b t c : Series)
    (hs : (dates s).Nodup) (hb : (dates b).Nodup)
    (ht : t.Perm s) (hc : c.Perm b) :
    merge s b = merge s b ∧ calc_metrics s b = calc_metrics s b ∧
    merge t c = merge s b ∧ calc_metrics t c = calc_metrics s b := by
  refine ⟨rfl, rfl, merge_perm s t b c ht hc hs hb, ?_⟩
  unfold calc_metrics
  rw [merge_perm s t b c ht hc hs hb]

/-- Witness for C8 at concrete permuted series. -/
theorem claim_C8_determinism_witness :
    merge exS exB = merge exS exB ∧
    calc_metrics exS exB = calc_metrics exS exB ∧
    merge exSperm exBperm = merge exS exB ∧
    calc_metrics exSperm exBperm = calc_metrics exS exB :=
  claim_C8_determinism exS exB exSperm exBperm (by decide) (by decide)
    (by decide) (by decide)

/-- C3, counterexample: on a single aligned observation (fewer than WINDOW)
the computation emits one row — it does not emit zero rows, and there is no
separate insufficient-data signal, so the claim as stated is false. -/
theorem claim_C3_counterexample :
    calcMetricsAligned exOne ≠ [] ∧ (calcMetricsAligned exOne).length = 1 := by
  have hl : (calcMetricsAligned exOne).length = 1 := by
    rw [length_calcMetricsAligned]
    rfl
  refine ⟨?_, hl⟩
  apply List.length_pos.mp
  rw [hl]
  norm_num

/-- C3, amended: for an aligned series shorter than WINDOW the computation
emits one row per aligned observation, every emitted row carries the NaN
sentinel in both metric columns (no defined metric value), and on the empty
aligned series the downstream latest-row access yields no snapshot; no
separate insufficient-data error is raised. -/
theorem claim_C3_short_series (m : List Row) (h : m.length < WINDOW) :
    (calcMetricsAligned m).length = m.length ∧
    (∀ r ∈ calcMetricsAligned m, r.corr = none ∧ r.beta = FV.nan) ∧
    (m = [] → snapshot (calcMetricsAligned m) = none) := by
  refine ⟨length_calcMetricsAligned m, ?_, ?_⟩
  · intro r hr
    obtain ⟨i, hi, hc, hb⟩ := mem_calcMetricsAligned m r hr
    have hw : i + 1 < WINDOW := by omega
    exact ⟨hc.trans (rcorr_none m i hw), hb.trans (rbeta_nan m i hw)⟩
  · intro hm
    subst hm
    rfl

/-- Witness for the amended C3 at a single aligned observation. -/
theorem claim_C3_short_series_witness :
    (calcMetricsAligned exOne).length = exOne.length ∧
    ((calcMetricsAligned exOne).getD 0 default).corr = none ∧
    ((calcMetricsAligned exOne).getD 0 default).beta = FV.nan :=
  have h := claim_C3_short_series exOne (by norm_num [exOne, WINDOW])
  have hmem : (calcMetricsAligned exOne).getD 0 default ∈
      calcMetricsAligned exOne := by
    have hl : 0 < (calcMetricsAligned exOne).length := by
      rw [length_calcMetricsAligned]
      norm_num [exOne]
    rw [List.getD_eq_getElem _ _ hl]
    exact List.getElem_mem hl
  ⟨h.1, (h.2.1 _ hmem).1, (h.2.1 _ hmem).2⟩

/-- C4, counterexample: with exactly WINDOW aligned observations the
computed table has WINDOW rows, not one row — rows at positions before
`WINDOW - 1` exist in the table (carrying NaN metrics), so the claim as
stated is false. -/
theorem claim_C4_counterexample :
    (calcMetricsAligned exM60).length = 60 ∧
    (calcMetricsAligned exM60).length ≠ 1 := by
  have h : (calcMetricsAligned exM60).length = 60 := by
    rw [length_calcMetricsAligned, exM60_length]
    rfl
  exact ⟨h, by rw [h]; norm_num⟩

/-- C4, amended: the computed table has one row per aligned observation;
rows at positions with `i + 1 < WINDOW` carry the NaN sentinel in both
metric columns (no defined metric value exists there); and with exactly
WINDOW aligned observations whose final-window variances are nonzero, the
last row — the only row with a full trailing window — carries defined
correlation and beta values. -/
theorem claim_C4_window_boundary (m : List Row) :
    (calcMetricsAligned m).length = m.length ∧
    (∀ i : ℕ, i + 1 < WINDOW →
      ((calcMetricsAligned m).getD i default).corr = none ∧
      ((calcMetricsAligned m).getD i default).beta = FV.nan) ∧
    (m.length = WINDOW → svar (m.map Row.ret) ≠ 0 → svar (m.map Row.twii) ≠ 0 →
      ∃ r : MRow, (calcMetricsAligned m).getLast? = some r ∧
        (∃ c : ℝ, r.corr = some c) ∧ (∃ q : ℚ, r.beta = FV.fin q)) := by
  refine ⟨length_calcMetricsAligned m, ?_, ?_⟩
  · intro i hiw
    by_cases hi : i < m.length
    · rw [getD_calcMetricsAligned m i hi]
      exact ⟨rcorr_none m i hiw, rbeta_nan m i hiw⟩
    · rw [List.getD_eq_default]
      · exact ⟨rfl, rfl⟩
      · rw [length_calcMetricsAligned]
        omega
  · intro hlen hx hy
    have hne : m ≠ [] := by
      intro h
      rw [h] at hlen
      exact absurd hlen.symm (by norm_num [WINDOW])
    have hw : WINDOW ≤ (m.length - 1) + 1 := by
      rw [hlen]
      norm_num [WINDOW]
    have hi : m.length - 1 < m.length := by
      rw [hlen]
      norm_num [WINDOW]
    have hrets : retsAt m (m.length - 1) = m.map Row.ret := by
      unfold retsAt
      rw [hlen, winAt_last m hlen]
    have htwiis : twiisAt m (m.length - 1) = m.map Row.twii := by
      unfold twiisAt
      rw [hlen, winAt_last m hlen]
    have hcond : ¬ (svar (retsAt m (m.length - 1)) = 0 ∨
        svar (twiisAt m (m.length - 1)) = 0) := by
      push_neg
      rw [hrets, htwiis]
      exact ⟨hx, hy⟩
    rw [getLast?_calcMetricsAligned m hne,
      getD_calcMetricsAligned m (m.length - 1) hi]
    refine ⟨_, rfl, ?_, ?_⟩
    · refine ⟨(scov (retsAt m (m.length - 1)) (twiisAt m (m.length - 1)) : ℝ) /
        Real.sqrt ((svar (retsAt m (m.length - 1)) : ℝ) *
          (svar (twiisAt m (m.length - 1)) : ℝ)), ?_⟩
      unfold rcorr
      rw [if_pos hw, if_neg hcond]
    · refine ⟨scov (retsAt m (m.length - 1)) (twiisAt m (m.length - 1)) /
        svar (twiisAt m (m.length - 1)), ?_⟩
      unfold rbeta rcov rvar
      rw [if_pos hw, if_pos hw, fdivO_some_some, if_neg]
      rw [htwiis]
      exact hy

/-- Witness for the amended C4 at a 60-observation aligned series. -/
theorem claim_C4_window_boundary_witness :
    (calcMetricsAligned exM60).length = exM60.length ∧
    (((calcMetricsAligned exM60).getD 0 default).corr = none ∧
      ((calcMetricsAligned exM60).getD 0 default).beta = FV.nan) ∧
    (∃ r : MRow, (calcMetricsAligned exM60).getLast? = some r ∧
      (∃ c : ℝ, r.corr = some c) ∧ (∃ q : ℚ, r.beta = FV.fin q)) :=
  have h := claim_C4_window_boundary exM60
  ⟨h.1, h.2.1 0 (by norm_num [WINDOW]),
   h.2.2 exM60_length exM60_svar_ne
     (by rw [exM60_twii_eq_ret]; exact exM60_svar_ne)⟩

/-- C5: at every position with a full trailing window whose benchmark
sub-window has zero sample variance, the emitted beta is the NaN sentinel —
not an infinity, and the computation is total (no exception). -/
theorem claim_C5_zero_variance_beta (m : List Row) (i : ℕ) (hi : i < m.length)
    (hw : WINDOW ≤ i + 1) (hv : svar (twiisAt m i) = 0) :
    ((calcMetricsAligned m).getD i default).beta = FV.nan ∧
    (∀ s : Bool, ((calcMetricsAligned m).getD i default).beta ≠ FV.inf s) := by
  have hlen2 : 2 ≤ (twiisAt m i).length := by
    rw [length_twiisAt m i hw hi]
    norm_num [WINDOW]
  have hcov : scov (retsAt m i) (twiisAt m i) = 0 :=
    scov_eq_zero_of_right_flat _ _ hlen2 hv
  have hbeta : ((calcMetricsAligned m).getD i default).beta = FV.nan := by
    rw [getD_calcMetricsAligned m i hi]
    show rbeta m i = FV.nan
    unfold rbeta rcov rvar
    rw [if_pos hw, if_pos hw, hcov, hv, fdivO_some_some, if_pos rfl, if_pos rfl]
  refine ⟨hbeta, ?_⟩
  intro s h
  rw [hbeta] at h
  cases h

/-- Witness for C5 at a series whose benchmark column is constant. -/
theorem claim_C5_zero_variance_beta_witness :
    ((calcMetricsAligned exFlat).getD (WINDOW - 1) default).beta = FV.nan ∧
    ((calcMetricsAligned exFlat).getD (WINDOW - 1) default).beta ≠
      FV.inf true :=
  have h := claim_C5_zero_variance_beta exFlat (WINDOW - 1)
    (by rw [exFlat_length]; norm_num [WINDOW]) (by norm_num [WINDOW])
    exFlat_svar0
  ⟨h.1, h.2 true⟩

/-- C1, counterexample: with benchmark return the negation of the strategy
return, the final row has correlation -1 and beta -1, so the absolute values
exceed 0.4, yet the alert — which compares the raw signed values — is
false; the claimed equivalence with the absolute-value condition fails. -/
theorem claim_C1_counterexample :
    ¬ (alertOf (calcMetricsAligned exNeg) ↔
      (∃ r : MRow, (calcMetricsAligned exNeg).getLast? = some r ∧
        ((∃ x : ℝ, r.corr = some x ∧ (2/5 : ℝ) < |x|) ∨
          (∃ q : ℚ, r.beta = FV.fin q ∧ (2/5 : ℚ) < |q|)))) := by
  have hne : exNeg ≠ [] := by
    apply List.length_pos.mp
    rw [exNeg_length]
    norm_num [WINDOW]
  have hw : WINDOW ≤ (WINDOW - 1) + 1 := by norm_num [WINDOW]
  have hv2 : svar (retsAt exNeg (WINDOW - 1)) ≠ 0 := by
    rw [exNeg_rets]
    exact exNeg_svar_ne
  have hcorr : rcorr exNeg (WINDOW - 1) = some (-1) :=
    rcorr_negated exNeg (WINDOW - 1) exNeg_negated hw hv2
  have hbeta : rbeta exNeg (WINDOW - 1) = FV.fin (-1) :=
    rbeta_negated exNeg (WINDOW - 1) exNeg_negated hw hv2
  have hlast := getLast?_calcMetricsAligned exNeg hne
  rw [getD_calcMetricsAligned exNeg (exNeg.length - 1)
    (by rw [exNeg_length]; norm_num [WINDOW]), exNeg_length] at hlast
  intro hiff
  have hrhs : ∃ r : MRow, (calcMetricsAligned exNeg).getLast? = some r ∧
      ((∃ x : ℝ, r.corr = some x ∧ (2/5 : ℝ) < |x|) ∨
        (∃ q : ℚ, r.beta = FV.fin q ∧ (2/5 : ℚ) < |q|)) := by
    refine ⟨_, hlast, Or.inl ⟨-1, ?_, by norm_num⟩⟩
    exact hcorr
  have halert := hiff.mpr hrhs
  rw [alertOf_eq _ _ hlast] at halert
  rcases halert with h1 | h1
  · change corrGT (rcorr exNeg (WINDOW - 1)) (2/5) at h1
    rw [hcorr, corrGT_some] at h1
    norm_num at h1
  · change betaGT (rbeta exNeg (WINDOW - 1)) (2/5) at h1
    rw [hbeta, betaGT_fin] at h1
    norm_num at h1

/-- C1, amended: the alert is evaluated on the latest metric row only and
compares the raw signed values — it holds exactly when corr > 0.4 or
beta > 0.4 on that row (NaN comparing false); for an aligned series of
WINDOW observations with strategy return equal to benchmark return every day
and nonzero window variance, the final row has correlation 1 and beta 1 and
the alert holds. -/
theorem claim_C1_alert (m : List Row) (hlen : m.length = WINDOW)
    (hid : ∀ r ∈ m, r.ret = r.twii) (hv : svar (m.map Row.ret) ≠ 0) :
    (∀ rows : List MRow, ∀ r : MRow, rows.getLast? = some r →
      (alertOf rows ↔ (corrGT r.corr (2/5) ∨ betaGT r.beta (2/5)))) ∧
    (∃ r : MRow, (calcMetricsAligned m).getLast? = some r ∧
      r.corr = some 1 ∧ r.beta = FV.fin 1) ∧
    alertOf (calcMetricsAligned m) := by
  have hne : m ≠ [] := by
    apply List.length_pos.mp
    rw [hlen]
    norm_num [WINDOW]
  have hw : WINDOW ≤ (WINDOW - 1) + 1 := by norm_num [WINDOW]
  have hrets : retsAt m (WINDOW - 1) = m.map Row.ret := by
    unfold retsAt
    rw [winAt_last m hlen]
  have hv2 : svar (retsAt m (WINDOW - 1)) ≠ 0 := by
    rw [hrets]
    exact hv
  have hcorr : rcorr m (WINDOW - 1) = some 1 :=
    rcorr_identical m (WINDOW - 1) hid hw hv2
  have hbeta : rbeta m (WINDOW - 1) = FV.fin 1 :=
    rbeta_identical m (WINDOW - 1) hid hw hv2
  have hlast := getLast?_calcMetricsAligned m hne
  rw [getD_calcMetricsAligned m (m.length - 1) (by rw [hlen]; norm_num [WINDOW]),
    hlen] at hlast
  refine ⟨fun rows r h => alertOf_eq rows r h, ⟨_, hlast, hcorr, hbeta⟩, ?_⟩
  rw [alertOf_eq _ _ hlast]
  left
  rw [show (⟨(m.getD (WINDOW - 1) default).date, (m.getD (WINDOW - 1) default).ret,
    (m.getD (WINDOW - 1) default).twii, rcorr m (WINDOW - 1),
    rbeta m (WINDOW - 1)⟩ : MRow).corr = rcorr m (WINDOW - 1) from rfl, hcorr,
    corrGT_some]
  push_cast
  norm_num

/-- Witness for the amended C1 at a 60-observation identical-pair series. -/
theorem claim_C1_alert_witness :
    (∃ r : MRow, (calcMetricsAligned exM60).getLast? = some r ∧
      r.corr = some 1 ∧ r.beta = FV.fin 1) ∧
    alertOf (calcMetricsAligned exM60) :=
  have h := claim_C1_alert exM60 exM60_length exM60_identical exM60_svar_ne
  ⟨h.2.1, h.2.2⟩

/-- C6, counterexample: for a series of exactly WINDOW aligned observations
the table holds exactly one defined metric row, yet the snapshot deltas are
the NaN sentinel, not zero — the delta is taken against the second-to-last
table row, whose metrics are undefined. -/
theorem claim_C6_counterexample :
    List.countP (fun r => r.beta.isFin) (calcMetricsAligned exM60) = 1 ∧
    ∃ sn : Snapshot, snapshot (calcMetricsAligned exM60) = some sn ∧
      sn.dcorr = none ∧ sn.dbeta = FV.nan ∧
      sn.dcorr ≠ some 0 ∧ sn.dbeta ≠ FV.fin 0 := by
  have hw : WINDOW ≤ (WINDOW - 1) + 1 := by norm_num [WINDOW]
  have hv2 : svar (retsAt exM60 (WINDOW - 1)) ≠ 0 := by
    rw [exM60_rets]
    exact exM60_svar_ne
  have hbeta59 : rbeta exM60 (WINDOW - 1) = FV.fin 1 :=
    rbeta_identical exM60 (WINDOW - 1) exM60_identical hw hv2
  have hcount : List.countP (fun r => r.beta.isFin) (calcMetricsAligned exM60)
      = 1 := by
    unfold calcMetricsAligned
    rw [List.countP_map, exM60_length,
      show (WINDOW : ℕ) = 59 + 1 from rfl, List.range_succ,
      List.countP_append]
    have hz : List.countP
        ((fun r => MRow.beta r |>.isFin) ∘ (fun i =>
          (⟨(exM60.getD i default).date, (exM60.getD i default).ret,
            (exM60.getD i default).twii, rcorr exM60 i, rbeta exM60 i⟩ : MRow)))
        (List.range 59) = 0 := by
      rw [List.countP_eq_zero]
      intro i hi
      rw [List.mem_range] at hi
      show ¬ FV.isFin (rbeta exM60 i) = true
      rw [rbeta_nan exM60 i (by unfold WINDOW; omega)]
      intro h
      cases h
    rw [hz]
    have h59 : FV.isFin (rbeta exM60 59) = true := by
      rw [show (59 : ℕ) = WINDOW - 1 from rfl, hbeta59]
      rfl
    rw [List.countP_cons, List.countP_nil]
    show 0 + (0 + if FV.isFin (rbeta exM60 59) = true then 1 else 0) = 1
    rw [h59]
    rfl
  have h2 : 2 ≤ exM60.length := by
    rw [exM60_length]
    norm_num [WINDOW]
  have hsn := snapshot_calcMetricsAligned exM60 h2
  rw [exM60_length] at hsn
  have hdc : subO (rcorr exM60 (WINDOW - 1)) (rcorr exM60 (WINDOW - 2)) =
      none := by
    rw [rcorr_none exM60 (WINDOW - 2) (by norm_num [WINDOW])]
    exact subO_none_right _
  have hdb : fsub (rbeta exM60 (WINDOW - 1)) (rbeta exM60 (WINDOW - 2)) =
      FV.nan := by
    rw [rbeta_nan exM60 (WINDOW - 2) (by norm_num [WINDOW])]
    exact fsub_nan_right _
  refine ⟨hcount, _, hsn, hdc, hdb, ?_, ?_⟩
  · rw [hdc]
    intro h
    cases h
  · rw [hdb]
    intro h
    cases h

/-- C6, amended: the snapshot's current values are the last table row's
correlation and beta; the deltas are the NaN-propagating difference between
the last two rows of the full computed table (not of the defined metric
rows only) and equal zero when the table has exactly one row; the spec's
concrete example evaluates as claimed; and when the aligned series has
exactly WINDOW observations — so that exactly the last table row is a
defined metric row — both deltas are the NaN sentinel, not zero. -/
theorem claim_C6_snapshot :
    (∀ rows : List MRow, ∀ last prev : MRow, rows.getLast? = some last →
      rows.dropLast.getLast? = some prev → 1 < rows.length →
      snapshot rows = some ⟨last.corr, last.beta, subO last.corr prev.corr,
        fsub last.beta prev.beta⟩) ∧
    (∀ r : MRow, snapshot [r] = some ⟨r.corr, r.beta, some 0, FV.fin 0⟩) ∧
    (snapshot exRows =
      some ⟨some 0.45, FV.fin 0.25, some 0.15, FV.fin 0.05⟩) ∧
    (∀ m : List Row, m.length = WINDOW → ∀ sn : Snapshot,
      snapshot (calcMetricsAligned m) = some sn →
      sn.dcorr = none ∧ sn.dbeta = FV.nan) := by
  refine ⟨fun rows last prev h1 h2 h3 => snapshot_eq rows last prev h1 h2 h3,
    fun r => rfl, ?_, ?_⟩
  · have h1 : exRows.getLast? =
        some ⟨2, 0, 0, some 0.45, FV.fin 0.25⟩ := rfl
    have h2 : exRows.dropLast.getLast? =
        some ⟨1, 0, 0, some 0.30, FV.fin 0.20⟩ := rfl
    have h3 : 1 < exRows.length := by norm_num [exRows]
    rw [snapshot_eq _ _ _ h1 h2 h3]
    change some (⟨some 0.45, FV.fin 0.25, subO (some 0.45) (some 0.30),
      fsub (FV.fin 0.25) (FV.fin 0.20)⟩ : Snapshot) = _
    rw [show subO (some (0.45 : ℝ)) (some 0.30) = some ((0.45 : ℝ) - 0.30)
        from rfl,
      show fsub (FV.fin (0.25 : ℚ)) (FV.fin 0.20) =
        FV.fin ((0.25 : ℚ) - 0.20) from rfl,
      show (0.45 : ℝ) - 0.30 = 0.15 from by norm_num,
      show (0.25 : ℚ) - 0.20 = 0.05 from by norm_num]
  · intro m hlen sn hsn
    have h2 : 2 ≤ m.length := by
      rw [hlen]
      norm_num [WINDOW]
    rw [snapshot_calcMetricsAligned m h2, hlen] at hsn
    injection hsn with hsn
    subst hsn
    have hw2 : (WINDOW - 2) + 1 < WINDOW := by norm_num [WINDOW]
    constructor
    · show subO (rcorr m (WINDOW - 1)) (rcorr m (WINDOW - 2)) = none
      rw [rcorr_none m (WINDOW - 2) hw2]
      exact subO_none_right _
    · show fsub (rbeta m (WINDOW - 1)) (rbeta m (WINDOW - 2)) = FV.nan
      rw [rbeta_nan m (WINDOW - 2) hw2]
      exact fsub_nan_right _

/-- Witness for the amended C6: the spec's concrete snapshot example. -/
theorem claim_C6_snapshot_witness :
    snapshot exRows =
      some ⟨some 0.45, FV.fin 0.25, some 0.15, FV.fin 0.05⟩ :=
  claim_C6_snapshot.2.2.1

/-- C9: every defined (non-NaN) correlation value in the computed table lies
in the closed interval from -1 to 1. -/
theorem claim_C9_corr_bounds (m : List Row) (r : MRow)
    (hr : r ∈ calcMetricsAligned m) (c : ℝ) (hc : r.corr = some c) :
    -1 ≤ c ∧ c ≤ 1 := by
  obtain ⟨i, hi, hcorr, hbet⟩ := mem_calcMetricsAligned m r hr
  rw [hcorr] at hc
  unfold rcorr at hc
  by_cases hw : WINDOW ≤ i + 1
  · rw [if_pos hw] at hc
    by_cases hz : svar (retsAt m i) = 0 ∨ svar (twiisAt m i) = 0
    · rw [if_pos hz] at hc
      cases hc
    · rw [if_neg hz] at hc
      push_neg at hz
      have hb := corr_abs_le_one (retsAt m i) (twiisAt m i)
        (retsAt_length_eq m i) hz.1 hz.2
      injection hc with hc
      rw [hc] at hb
      rw [abs_le] at hb
      exact hb
  · rw [if_neg hw] at hc
    cases hc

/-- C10: wherever the trailing window is full and both window variances are
nonzero, the emitted beta equals the emitted correlation times the ratio of
the sample standard deviations (strategy over benchmark). -/
theorem claim_C10_beta_corr_relation (m : List Row) (i : ℕ) (hi : i < m.length)
    (hw : WINDOW ≤ i + 1) (hx : svar (retsAt m i) ≠ 0)
    (hy : svar (twiisAt m i) ≠ 0) :
    ∃ c : ℝ, ∃ q : ℚ,
      ((calcMetricsAligned m).getD i default).corr = some c ∧
      ((calcMetricsAligned m).getD i default).beta = FV.fin q ∧
      (q : ℝ) = c * (Real.sqrt ((svar (retsAt m i) : ℝ)) /
        Real.sqrt ((svar (twiisAt m i) : ℝ))) := by
  have hx0 : (0 : ℝ) < (svar (retsAt m i) : ℝ) := by
    have h1 := svar_nonneg (retsAt m i)
    have h2 : (0 : ℝ) ≤ (svar (retsAt m i) : ℝ) := by exact_mod_cast h1
    have h3 : (svar (retsAt m i) : ℝ) ≠ 0 := by exact_mod_cast hx
    exact lt_of_le_of_ne h2 (Ne.symm h3)
  have hy0 : (0 : ℝ) < (svar (twiisAt m i) : ℝ) := by
    have h1 := svar_nonneg (twiisAt m i)
    have h2 : (0 : ℝ) ≤ (svar (twiisAt m i) : ℝ) := by exact_mod_cast h1
    have h3 : (svar (twiisAt m i) : ℝ) ≠ 0 := by exact_mod_cast hy
    exact lt_of_le_of_ne h2 (Ne.symm h3)
  refine ⟨(scov (retsAt m i) (twiisAt m i) : ℝ) /
    Real.sqrt ((svar (retsAt m i) : ℝ) * (svar (twiisAt m i) : ℝ)),
    scov (retsAt m i) (twiisAt m i) / svar (twiisAt m i), ?_, ?_, ?_⟩
  · rw [getD_calcMetricsAligned m i hi]
    show rcorr m i = some _
    unfold rcorr
    rw [if_pos hw, if_neg (by push_neg; exact ⟨hx, hy⟩)]
  · rw [getD_calcMetricsAligned m i hi]
    show rbeta m i = FV.fin _
    unfold rbeta rcov rvar
    rw [if_pos hw, if_pos hw, fdivO_some_some, if_neg hy]
  · have hsx : Real.sqrt ((svar (retsAt m i) : ℝ)) ≠ 0 :=
      ne_of_gt (Real.sqrt_pos.mpr hx0)
    have hyy : Real.sqrt ((svar (twiisAt m i) : ℝ)) *
        Real.sqrt ((svar (twiisAt m i) : ℝ)) = (svar (twiisAt m i) : ℝ) :=
      Real.mul_self_sqrt (le_of_lt hy0)
    have hkey : (scov (retsAt m i) (twiisAt m i) : ℝ) /
        Real.sqrt ((svar (retsAt m i) : ℝ) * (svar (twiisAt m i) : ℝ)) *
        (Real.sqrt ((svar (retsAt m i) : ℝ)) /
          Real.sqrt ((svar (twiisAt m i) : ℝ))) =
        (scov (retsAt m i) (twiisAt m i) : ℝ) / (svar (twiisAt m i) : ℝ) := by
      rw [Real.sqrt_mul (le_of_lt hx0), div_mul_div_comm, mul_assoc, hyy,
        mul_comm ((scov (retsAt m i) (twiisAt m i) : ℝ))
          (Real.sqrt ((svar (retsAt m i) : ℝ))),
        mul_div_mul_left _ _ hsx]
    push_cast
    exact hkey.symm

/-- Witness for C10 at the final row of a 60-observation identical-pair
series. -/
theorem claim_C10_beta_corr_relation_witness :
    ∃ c : ℝ, ∃ q : ℚ,
      ((calcMetricsAligned exM60).getD (WINDOW - 1) default).corr = some c ∧
      ((calcMetricsAligned exM60).getD (WINDOW - 1) default).beta =
        FV.fin q ∧
      (q : ℝ) = c * (Real.sqrt ((svar (retsAt exM60 (WINDOW - 1)) : ℝ)) /
        Real.sqrt ((svar (twiisAt exM60 (WINDOW - 1)) : ℝ))) :=
  claim_C10_beta_corr_relation exM60 (WINDOW - 1)
    (by rw [exM60_length]; norm_num [WINDOW]) (by norm_num [WINDOW])
    (by rw [exM60_rets]; exact exM60_svar_ne)
    (by
      rw [twiisAt_eq_retsAt exM60 (WINDOW - 1) exM60_identical, exM60_rets]
      exact exM60_svar_ne)

/-- Witness for C9 at the final row of a 60-observation identical-pair
series. -/
theorem claim_C9_corr_bounds_witness :
    -1 ≤ ((scov (retsAt exM60 (WINDOW - 1)) (twiisAt exM60 (WINDOW - 1)) : ℝ) /
      Real.sqrt ((svar (retsAt exM60 (WINDOW - 1)) : ℝ) *
        (svar (twiisAt exM60 (WINDOW - 1)) : ℝ))) ∧
    ((scov (retsAt exM60 (WINDOW - 1)) (twiisAt exM60 (WINDOW - 1)) : ℝ) /
      Real.sqrt ((svar (retsAt exM60 (WINDOW - 1)) : ℝ) *
        (svar (twiisAt exM60 (WINDOW - 1)) : ℝ))) ≤ 1 :=
  claim_C9_corr_bounds exM60
    ((calcMetricsAligned exM60).getD (WINDOW - 1) default)
    (by
      have hl : WINDOW - 1 < (calcMetricsAligned exM60).length := by
        rw [length_calcMetricsAligned, exM60_length]
        norm_num [WINDOW]
      rw [List.getD_eq_getElem _ _ hl]
      exact List.getElem_mem hl)
    _
    (by
      rw [getD_calcMetricsAligned exM60 (WINDOW - 1)
        (by rw [exM60_length]; norm_num [WINDOW])]
      show rcorr exM60 (WINDOW - 1) = some _
      unfold rcorr
      rw [if_pos (by norm_num [WINDOW]), if_neg]
      push_neg
      refine ⟨by rw [exM60_rets]; exact exM60_svar_ne, ?_⟩
      rw [twiisAt_eq_retsAt exM60 (WINDOW - 1) exM60_identical, exM60_rets]
      exact exM60_svar_ne)

end AlphaBeta
